import Mathlib

/-!
Verification development for the MediMind RAG summarization pipeline.

The definitions below are shallow embeddings of the pipeline's core
functions:

* `chunkText` embeds the text chunker of the ingestion edge function
  (src/unnamed/part_001, lines 16-40).
* `search_similar_chunks` embeds the SQL similarity query
  (src/unnamed/part_000, lines 209-239).
* `parseGeminiResponse` embeds the free-text response parser of the
  summarization edge function
  (src/supabase/functions/generate-summary/index.ts, lines 105-160).
* `retrieveContext` and `generateSummaryServe` embed the retrieval helper
  and the request handler of the same edge function, with each external
  effect (network call, storage read, database write) represented by an
  explicit outcome value in an environment record.

Texts are modelled as `List Char`: the JavaScript string operations used
by the source (`slice`, `trim`, `split`, index arithmetic) act on code
units, which `List Char` positions model faithfully for the inputs the
claims quantify over.
-/

/-- Whitespace as recognized by JavaScript `trim` and the regex class
`\s` (the ASCII members; the source never manipulates exotic Unicode
space characters). -/
def isJsWhitespace (c : Char) : Bool :=
  c = ' ' || c = '\t' || c = '\n' || c = '\r' || c = '\x0b' || c = '\x0c'

/-- JavaScript `String.prototype.trim`: remove leading and trailing
whitespace. -/
def trimChars (l : List Char) : List Char :=
  ((l.dropWhile isJsWhitespace).reverse.dropWhile isJsWhitespace).reverse

/-- JavaScript `text.slice(s, e)` for `0 ≤ s ≤ e`: the characters at
positions `s, …, e-1` (clamped to the text length). -/
def sliceList (l : List Char) (s e : Nat) : List Char :=
  (l.take e).drop s

/-- Metadata record attached to each chunk
(src/unnamed/part_001, lines 28-32). -/
structure ChunkMetadata where
  start_char : Nat
  end_char : Nat
  length : Nat
deriving DecidableEq, Repr

/-- The `ChunkData` interface of the ingestion edge function
(src/unnamed/part_001, lines 9-13). -/
structure ChunkData where
  content : List Char
  index : Nat
  metadata : ChunkMetadata
deriving DecidableEq, Repr

/-- The loop body of `chunkText` (src/unnamed/part_001, lines 16-40),
indexed by fuel.  Each iteration slices the window
`[startIndex, min (startIndex+chunkSize) text.length)`, records the
trimmed content together with the untrimmed offsets and the untrimmed
window length, and advances `startIndex` by `chunkSize - overlap`
(the JavaScript subtraction agrees with truncated `Nat` subtraction
whenever `overlap ≤ chunkSize`, which covers every claim's parameter
range).  The source's `while (startIndex < text.length)` loop is
represented by recursion on an explicit fuel counter; running out of
fuel yields `none`, so `none` marks a loop that has not yet finished
within the given number of iterations. -/
def chunkTextAux (text : List Char) (chunkSize overlap : Nat) :
    Nat → Nat → Nat → Option (List ChunkData)
  | fuel, startIndex, chunkIndex =>
    if startIndex < text.length then
      match fuel with
      | 0 => none
      | fuel' + 1 =>
        let endIndex := min (startIndex + chunkSize) text.length
        let chunk := sliceList text startIndex endIndex
        (chunkTextAux text chunkSize overlap fuel'
            (startIndex + (chunkSize - overlap)) (chunkIndex + 1)).map
          (fun rest =>
            { content := trimChars chunk
              index := chunkIndex
              metadata :=
                { start_char := startIndex
                  end_char := endIndex
                  length := chunk.length } } :: rest)
    else
      some []

/-- Function `chunkText(text, chunkSize, overlap)` of src/unnamed/part_001.
Since the window start strictly advances while it is below
`text.length`, `text.length` iterations of fuel always suffice when
`overlap < chunkSize` (proved below); the `getD []` default is never
reached in that regime. -/
def chunkText (text : List Char) (chunkSize overlap : Nat) : List ChunkData :=
  (chunkTextAux text chunkSize overlap text.length 0 0).getD []

/-- Ceiling division `⌈n / s⌉` on naturals. -/
def ceilDiv (n s : Nat) : Nat := (n + s - 1) / s

/-- The fragment-count formula asserted by the specification
(spec.md §8, "Fragment index uniqueness"): `ceil((N - O) / (C - O))`
bounded below by 1.  This definition follows the spec's words and is
compared against the embedded `chunkText`. -/
def specFragmentCount (N C O : Nat) : Nat :=
  max 1 (ceilDiv (N - O) (C - O))

theorem sliceList_length (l : List Char) (s e : Nat) :
    (sliceList l s e).length = min e l.length - s := by
  simp [sliceList]

/-- Stepping lemma for ceiling division: one loop iteration removes `s`
characters from the remaining span. -/
theorem ceilDiv_step {m s : Nat} (hs : 0 < s) (hm : 0 < m) :
    ceilDiv m s = ceilDiv (m - s) s + 1 := by
  rcases le_or_lt m s with h | h
  · have h1 : m - s = 0 := by omega
    have h2 : m + s - 1 = (m - 1) + s := by omega
    have h3 : (m - 1) / s = 0 := Nat.div_eq_of_lt (by omega)
    have h4 : (s - 1) / s = 0 := Nat.div_eq_of_lt (by omega)
    simp [ceilDiv, h1, h2, Nat.add_div_right _ hs, h3, h4]
  · have h2 : m + s - 1 = (m - s + s - 1) + s := by omega
    simp [ceilDiv, h2, Nat.add_div_right _ hs]

/-- Structure of the chunking loop: with a strictly positive step
`C - O` and fuel at least the remaining span, the loop returns, the
number of produced fragments is `⌈(remaining span) / (C - O)⌉`, the
fragment indices are consecutive starting from the loop's running
index, and every fragment records the window the source code slices. -/
theorem chunkTextAux_spec (text : List Char) (C O : Nat) (hs : 0 < C - O) :
    ∀ fuel startIndex chunkIndex, text.length - startIndex ≤ fuel →
    ∃ l, chunkTextAux text C O fuel startIndex chunkIndex = some l ∧
      l.length = ceilDiv (text.length - startIndex) (C - O) ∧
      l.map (fun c => c.index) = List.range' chunkIndex l.length ∧
      ∀ c ∈ l,
        startIndex ≤ c.metadata.start_char ∧
        c.metadata.start_char < text.length ∧
        c.metadata.end_char = min (c.metadata.start_char + C) text.length ∧
        c.content = trimChars (sliceList text c.metadata.start_char c.metadata.end_char) ∧
        c.metadata.length = c.metadata.end_char - c.metadata.start_char := by
  intro fuel
  induction fuel with
  | zero =>
    intro startIndex chunkIndex hle
    have hge : ¬ startIndex < text.length := by omega
    have hz : text.length - startIndex = 0 := by omega
    have hc : ceilDiv 0 (C - O) = 0 := by
      simp [ceilDiv, Nat.div_eq_of_lt (show C - O - 1 < C - O by omega)]
    refine ⟨[], ?_, ?_, ?_, ?_⟩
    · simp [chunkTextAux, hge]
    · simp [hz, hc]
    · simp
    · simp
  | succ fuel' ih =>
    intro startIndex chunkIndex hle
    by_cases hlt : startIndex < text.length
    · have hle' : text.length - (startIndex + (C - O)) ≤ fuel' := by omega
      obtain ⟨rest, hrest, hlen, hidx, helems⟩ :=
        ih (startIndex + (C - O)) (chunkIndex + 1) hle'
      have hcount : ceilDiv (text.length - startIndex) (C - O) =
          ceilDiv (text.length - (startIndex + (C - O))) (C - O) + 1 := by
        have := ceilDiv_step (m := text.length - startIndex) (s := C - O) hs (by omega)
        have heq : text.length - startIndex - (C - O) =
            text.length - (startIndex + (C - O)) := by omega
        rw [this, heq]
      refine ⟨{ content := trimChars
                  (sliceList text startIndex (min (startIndex + C) text.length))
                index := chunkIndex
                metadata :=
                  { start_char := startIndex
                    end_char := min (startIndex + C) text.length
                    length := (sliceList text startIndex
                      (min (startIndex + C) text.length)).length } } :: rest,
        ?_, ?_, ?_, ?_⟩
      · simp [chunkTextAux, hlt, hrest]
      · simp [hlen, hcount]
      · simp only [List.map_cons, List.length_cons]
        rw [List.range'_succ, hidx]
      · intro c hc
        rcases List.mem_cons.1 hc with hc | hc
        · subst hc
          refine ⟨Nat.le_refl _, hlt, rfl, rfl, ?_⟩
          have hmin : min (min (startIndex + C) text.length) text.length =
              min (startIndex + C) text.length := by omega
          simp [sliceList_length, hmin]
        · obtain ⟨h1, h2, h3, h4, h5⟩ := helems c hc
          exact ⟨by omega, h2, h3, h4, h5⟩
    · have hz : text.length - startIndex = 0 := by omega
      have hc : ceilDiv 0 (C - O) = 0 := by
        simp [ceilDiv, Nat.div_eq_of_lt (show C - O - 1 < C - O by omega)]
      refine ⟨[], ?_, ?_, ?_, ?_⟩
      · simp [chunkTextAux, hlt]
      · simp [hz, hc]
      · simp
      · simp

/-- C9: for every input text and parameters with `0 < overlap < size`,
`chunkText` terminates: the window start strictly advances by
`size - overlap > 0` on every iteration, so the loop finishes within
`text.length` iterations of fuel and `chunkText` returns its value. -/
theorem chunkText_terminates (text : List Char) (C O : Nat)
    (hO : 0 < O) (hOC : O < C) :
    ∃ l, chunkTextAux text C O text.length 0 0 = some l ∧
      chunkText text C O = l := by
  obtain ⟨l, hl, -⟩ :=
    chunkTextAux_spec text C O (by omega) text.length 0 0 (by omega)
  exact ⟨l, hl, by simp [chunkText, hl]⟩

/-- Witness for `chunkText_terminates` at a concrete input. -/
theorem chunkText_terminates_witness :
    0 < 1 ∧ 1 < 2 ∧
    ∃ l, chunkTextAux ['a', 'b'] 2 1 (['a', 'b'] : List Char).length 0 0 = some l ∧
      chunkText ['a', 'b'] 2 1 = l :=
  ⟨by decide, by decide, chunkText_terminates ['a', 'b'] 2 1 (by decide) (by decide)⟩

/-- C3 counterexample: for the 2-character text "ab" with chunk size 2
and overlap 1, the code produces 2 fragments while the claim's formula
`max 1 ⌈(N - O) / (C - O)⌉` yields 1. -/
theorem chunkText_count_claim_false :
    (chunkText ['a', 'b'] 2 1).length = 2 ∧ specFragmentCount 2 2 1 = 1 ∧
    (2 : Nat) ≠ 1 := by decide

/-- C3 (amended): for every text of `N > 0` characters and parameters
`0 < O < C`, `chunkText` produces exactly `⌈N / (C - O)⌉` fragments
(the numerator is `N`, not `N - O`), carrying the indices
`0 .. count - 1` each exactly once. -/
theorem chunkText_count (text : List Char) (C O : Nat)
    (hN : 0 < text.length) (hO : 0 < O) (hOC : O < C) :
    (chunkText text C O).length = ceilDiv text.length (C - O) ∧
    (chunkText text C O).map (fun c => c.index) =
      List.range (chunkText text C O).length := by
  obtain ⟨l, hl, hlen, hidx, -⟩ :=
    chunkTextAux_spec text C O (by omega) text.length 0 0 (by omega)
  have hct : chunkText text C O = l := by simp [chunkText, hl]
  rw [hct]
  refine ⟨by simpa using hlen, ?_⟩
  rw [hidx, List.range_eq_range']

/-- Witness for `chunkText_count` at a concrete input:
3 characters, size 3, overlap 1 give `⌈3 / 2⌉ = 2` fragments with
indices `[0, 1]`. -/
theorem chunkText_count_witness :
    0 < (['a', 'b', 'c'] : List Char).length ∧ 0 < 1 ∧ 1 < 3 ∧
    ((chunkText ['a', 'b', 'c'] 3 1).length =
        ceilDiv (['a', 'b', 'c'] : List Char).length (3 - 1) ∧
      (chunkText ['a', 'b', 'c'] 3 1).map (fun c => c.index) =
        List.range (chunkText ['a', 'b', 'c'] 3 1).length) :=
  ⟨by decide, by decide, by decide,
    chunkText_count ['a', 'b', 'c'] 3 1 (by decide) (by decide) (by decide)⟩

/-- C4 counterexample: the 3-character text "abc" is strictly shorter
than the chunk size 4, yet with overlap 2 the code produces 2
fragments, not 1: the window start advances by `4 - 2 = 2 < 3`, so a
second window still begins inside the text. -/
theorem chunkText_single_claim_false :
    (['a', 'b', 'c'] : List Char).length < 4 ∧
    (chunkText ['a', 'b', 'c'] 4 2).length = 2 ∧ (2 : Nat) ≠ 1 := by decide

/-- C4 (amended): a single whole-text fragment is produced exactly for
nonempty texts of length at most `size - overlap` (not merely shorter
than `size`): then the one fragment's metadata spans offset 0 to the
text's length. -/
theorem chunkText_single (text : List Char) (C O : Nat)
    (hO : 0 < O) (hOC : O < C)
    (hN : 0 < text.length) (hNC : text.length ≤ C - O) :
    chunkText text C O =
      [{ content := trimChars text
         index := 0
         metadata :=
           { start_char := 0
             end_char := text.length
             length := text.length } }] := by
  obtain ⟨n, hn⟩ : ∃ n, text.length = n + 1 := ⟨text.length - 1, by omega⟩
  have hmin2 : min C text.length = text.length := Nat.min_eq_right (by omega)
  have hslice : sliceList text 0 text.length = text := by
    simp [sliceList]
  have hstop : ¬ (C - O < text.length) := by omega
  have hinner : chunkTextAux text C O n (C - O) 1 = some [] := by
    rw [chunkTextAux.eq_def]
    simp [hstop]
  have haux : chunkTextAux text C O (n + 1) 0 0 =
      some [{ content := trimChars text
              index := 0
              metadata :=
                { start_char := 0
                  end_char := text.length
                  length := text.length } }] := by
    simp [chunkTextAux, hN, hinner, hmin2, hslice]
  have h1 : chunkText text C O = (chunkTextAux text C O (n + 1) 0 0).getD [] := by
    simp only [chunkText, hn]
  rw [h1, haux]
  rfl

/-- Witness for `chunkText_single` at a concrete input. -/
theorem chunkText_single_witness :
    0 < 1 ∧ 1 < 2 ∧ 0 < (['a'] : List Char).length ∧
    (['a'] : List Char).length ≤ 2 - 1 ∧
    chunkText ['a'] 2 1 =
      [{ content := trimChars ['a']
         index := 0
         metadata :=
           { start_char := 0
             end_char := (['a'] : List Char).length
             length := (['a'] : List Char).length } }] :=
  ⟨by decide, by decide, by decide, by decide,
    chunkText_single ['a'] 2 1 (by decide) (by decide) (by decide) (by decide)⟩

/-- C8 counterexample: for the text " a" (a space then a letter) with
size 4 and overlap 1, the single fragment's `metadata.length` is 2
(the untrimmed window length) while the trimmed content has length 1,
so the length field is not the trimmed content's length. -/
theorem chunkText_metadata_claim_false :
    (chunkText [' ', 'a'] 4 1).map
        (fun c => (c.metadata.length, c.content.length)) = [(2, 1)] ∧
    (2 : Nat) ≠ 1 := by decide

/-- C8 (amended): for every text and parameters with
`0 < overlap < size`, each fragment carries trimmed text content, an
incrementing zero-based index, and metadata whose start/end fields are
the untrimmed character offsets of the window and whose length field is
the untrimmed window's length `end_char - start_char` (not the trimmed
content's length). -/
theorem chunkText_metadata (text : List Char) (C O : Nat)
    (hO : 0 < O) (hOC : O < C) :
    (chunkText text C O).map (fun c => c.index) =
      List.range (chunkText text C O).length ∧
    ∀ c ∈ chunkText text C O,
      c.content = trimChars (sliceList text c.metadata.start_char c.metadata.end_char) ∧
      c.metadata.start_char < text.length ∧
      c.metadata.end_char = min (c.metadata.start_char + C) text.length ∧
      c.metadata.length = c.metadata.end_char - c.metadata.start_char := by
  obtain ⟨l, hl, -, hidx, helems⟩ :=
    chunkTextAux_spec text C O (by omega) text.length 0 0 (by omega)
  have hct : chunkText text C O = l := by simp [chunkText, hl]
  rw [hct]
  refine ⟨by rw [hidx, List.range_eq_range'], ?_⟩
  intro c hc
  obtain ⟨-, h2, h3, h4, h5⟩ := helems c hc
  exact ⟨h4, h2, h3, h5⟩

/-- Witness for `chunkText_metadata` at a concrete input. -/
theorem chunkText_metadata_witness :
    0 < 2 ∧ 2 < 5 ∧
    ((chunkText [' ', 'x', 'y', ' ', 'z', 'w'] 5 2).map (fun c => c.index) =
        List.range (chunkText [' ', 'x', 'y', ' ', 'z', 'w'] 5 2).length ∧
      ∀ c ∈ chunkText [' ', 'x', 'y', ' ', 'z', 'w'] 5 2,
        c.content = trimChars (sliceList [' ', 'x', 'y', ' ', 'z', 'w']
          c.metadata.start_char c.metadata.end_char) ∧
        c.metadata.start_char < ([' ', 'x', 'y', ' ', 'z', 'w'] : List Char).length ∧
        c.metadata.end_char = min (c.metadata.start_char + 5)
          ([' ', 'x', 'y', ' ', 'z', 'w'] : List Char).length ∧
        c.metadata.length = c.metadata.end_char - c.metadata.start_char) :=
  ⟨by decide, by decide,
    chunkText_metadata [' ', 'x', 'y', ' ', 'z', 'w'] 5 2 (by decide) (by decide)⟩

/-- A row of the `report_chunks` table as seen by
`search_similar_chunks` (src/unnamed/part_000, lines 209-239) for one
fixed query embedding.  The field `dist` is the value of the cosine
distance operator between the row's embedding and the query embedding;
the function's `similarity` output is `1 - dist`.  The query's filter,
ordering and limit act only on this scalar, so the embedding vectors
themselves need not be materialized. -/
structure ChunkRow where
  id : Nat
  report_id : Nat
  content : List Char
  chunk_index : Nat
  dist : ℚ
deriving DecidableEq, Repr

/-- Score `1 - (report_chunks.embedding <=> query_embedding)`: the similarity
score returned by `search_similar_chunks`. -/
def similarity (r : ChunkRow) : ℚ := 1 - r.dist

/-- Ordering used by the SQL `ORDER BY report_chunks.embedding <=>
query_embedding`: ascending cosine distance. -/
def distLE (a b : ChunkRow) : Prop := a.dist ≤ b.dist

instance : DecidableRel distLE := fun a b =>
  inferInstanceAs (Decidable (a.dist ≤ b.dist))

instance : IsTotal ChunkRow distLE := ⟨fun a b => le_total a.dist b.dist⟩

instance : IsTrans ChunkRow distLE := ⟨fun _ _ _ h h' => le_trans h h'⟩

/-- The WHERE clause of `search_similar_chunks`
(src/unnamed/part_000, lines 233-235):
`(filter_report_id IS NULL OR report_id = filter_report_id) AND
1 - (embedding <=> query_embedding) > match_threshold`. -/
def rowPasses (match_threshold : ℚ) (filter_report_id : Option Nat)
    (r : ChunkRow) : Bool :=
  (match filter_report_id with
   | none => true
   | some f => r.report_id == f)
  && decide (match_threshold < 1 - r.dist)

/-- The `search_similar_chunks` SQL function
(src/unnamed/part_000, lines 209-239): keep the rows passing the
report filter whose similarity strictly exceeds `match_threshold`,
order them by ascending distance (descending similarity), and truncate
to `match_count` rows. -/
def search_similar_chunks (rows : List ChunkRow) (match_threshold : ℚ)
    (match_count : Nat) (filter_report_id : Option Nat) : List ChunkRow :=
  ((rows.filter (rowPasses match_threshold filter_report_id)).insertionSort
    distLE).take match_count

/-- C6: every row returned by `search_similar_chunks` has similarity
(`1 - cosine distance`) strictly greater than the threshold; the rows
are ordered by non-increasing similarity; at most `match_count` rows
are returned; and when a report filter is provided every returned row
belongs to that report. -/
theorem search_similar_chunks_spec (rows : List ChunkRow)
    (match_threshold : ℚ) (match_count : Nat) (filter_report_id : Option Nat) :
    (∀ r ∈ search_similar_chunks rows match_threshold match_count filter_report_id,
      match_threshold < similarity r) ∧
    (search_similar_chunks rows match_threshold match_count filter_report_id).Pairwise
      (fun a b => similarity b ≤ similarity a) ∧
    (search_similar_chunks rows match_threshold match_count filter_report_id).length ≤
      match_count ∧
    (∀ r ∈ search_similar_chunks rows match_threshold match_count filter_report_id,
      ∀ f, filter_report_id = some f → r.report_id = f) := by
  have hmem : ∀ r ∈ search_similar_chunks rows match_threshold match_count
      filter_report_id,
      r ∈ rows.filter (rowPasses match_threshold filter_report_id) := by
    intro r hr
    have h1 := List.mem_of_mem_take hr
    exact ((List.perm_insertionSort distLE _).mem_iff).1 h1
  have hprop : ∀ r ∈ search_similar_chunks rows match_threshold match_count
      filter_report_id,
      rowPasses match_threshold filter_report_id r = true := by
    intro r hr
    exact (List.mem_filter.1 (hmem r hr)).2
  refine ⟨?_, ?_, ?_, ?_⟩
  · intro r hr
    have := hprop r hr
    simp only [rowPasses, Bool.and_eq_true, decide_eq_true_eq] at this
    exact this.2
  · have hsorted : (((rows.filter (rowPasses match_threshold
        filter_report_id)).insertionSort distLE)).Pairwise distLE :=
      List.sorted_insertionSort distLE _
    have htake : (search_similar_chunks rows match_threshold match_count
        filter_report_id).Pairwise distLE :=
      hsorted.sublist (List.take_sublist _ _)
    refine htake.imp (fun h => ?_)
    have hd : _ ≤ _ := h
    simp only [similarity]
    linarith [hd]
  · exact List.length_take_le _ _
  · intro r hr f hf
    have := hprop r hr
    subst hf
    simp only [rowPasses, Bool.and_eq_true, beq_iff_eq] at this
    exact this.1

/-- Witness for `search_similar_chunks_spec`: the end-to-end scenario
with similarities 0.92, 0.81, 0.75, 0.68, 0.40 for report 1 plus a row
of report 2, threshold 0.7, limit 5, scoped to report 1. -/
theorem search_similar_chunks_spec_witness :
    (∀ r ∈ search_similar_chunks
        [⟨10, 1, ['a'], 0, 8/100⟩, ⟨11, 1, ['b'], 1, 19/100⟩,
         ⟨12, 1, ['c'], 2, 25/100⟩, ⟨13, 1, ['d'], 3, 32/100⟩,
         ⟨14, 1, ['e'], 4, 60/100⟩, ⟨15, 2, ['f'], 0, 1/100⟩]
        (7/10) 5 (some 1),
      (7 : ℚ)/10 < similarity r) ∧
    (search_similar_chunks
        [⟨10, 1, ['a'], 0, 8/100⟩, ⟨11, 1, ['b'], 1, 19/100⟩,
         ⟨12, 1, ['c'], 2, 25/100⟩, ⟨13, 1, ['d'], 3, 32/100⟩,
         ⟨14, 1, ['e'], 4, 60/100⟩, ⟨15, 2, ['f'], 0, 1/100⟩]
        (7/10) 5 (some 1)).Pairwise
      (fun a b => similarity b ≤ similarity a) ∧
    (search_similar_chunks
        [⟨10, 1, ['a'], 0, 8/100⟩, ⟨11, 1, ['b'], 1, 19/100⟩,
         ⟨12, 1, ['c'], 2, 25/100⟩, ⟨13, 1, ['d'], 3, 32/100⟩,
         ⟨14, 1, ['e'], 4, 60/100⟩, ⟨15, 2, ['f'], 0, 1/100⟩]
        (7/10) 5 (some 1)).length ≤ 5 ∧
    (∀ r ∈ search_similar_chunks
        [⟨10, 1, ['a'], 0, 8/100⟩, ⟨11, 1, ['b'], 1, 19/100⟩,
         ⟨12, 1, ['c'], 2, 25/100⟩, ⟨13, 1, ['d'], 3, 32/100⟩,
         ⟨14, 1, ['e'], 4, 60/100⟩, ⟨15, 2, ['f'], 0, 1/100⟩]
        (7/10) 5 (some 1),
      ∀ f, (some 1 : Option Nat) = some f → r.report_id = f) :=
  search_similar_chunks_spec
    [⟨10, 1, ['a'], 0, 8/100⟩, ⟨11, 1, ['b'], 1, 19/100⟩,
     ⟨12, 1, ['c'], 2, 25/100⟩, ⟨13, 1, ['d'], 3, 32/100⟩,
     ⟨14, 1, ['e'], 4, 60/100⟩, ⟨15, 2, ['f'], 0, 1/100⟩]
    (7/10) 5 (some 1)

/-- Case-insensitive character comparison, as the regex `i` flag
performs for the ASCII keywords used by the parser. -/
def charCI (a b : Char) : Bool := a.toLower == b.toLower

/-- Does `pat` occur case-insensitively at the start of `text`? -/
def startsWithCI : List Char → List Char → Bool
  | [], _ => true
  | _ :: _, [] => false
  | p :: ps, t :: ts => charCI p t && startsWithCI ps ts

/-- Index of the leftmost case-insensitive occurrence of `pat` in
`text`, if any.  This models where a JavaScript regex whose mandatory
part is the literal `pat` (everything after it being optional or able
to match the empty string) anchors its match. -/
def findCI (pat : List Char) : List Char → Option Nat
  | [] => if startsWithCI pat [] then some 0 else none
  | c :: t =>
    if startsWithCI pat (c :: t) then some 0
    else (findCI pat t).map (fun i => i + 1)

/-- Leftmost case-insensitive occurrence of any pattern of `pats` in
`text`, returning the match position and the length of the matched
pattern.  Patterns are tried in order at each position, which models a
regex alternation (and a greedy optional suffix such as `s?` when the
longer variant is listed first). -/
def findAltCI (pats : List (List Char)) : List Char → Option (Nat × Nat)
  | [] => (pats.find? (fun p => startsWithCI p [])).map (fun p => (0, p.length))
  | c :: t =>
    match pats.find? (fun p => startsWithCI p (c :: t)) with
    | some p => some (0, p.length)
    | none => (findAltCI pats t).map (fun x => (x.1 + 1, x.2))

/-- Drop one optional leading occurrence of `c` (case-insensitively),
modelling a greedy `c?` in the parser's regexes. -/
def dropOpt (c : Char) (l : List Char) : List Char :=
  match l with
  | [] => []
  | x :: xs => if charCI c x then xs else x :: xs

/-- The lazy capture group `([\s\S]*?)` followed by a lookahead
`(?=pat1|pat2|…|$)`: take characters until the first position where
one of `stopPats` begins (case-insensitively), or to the end of the
text when none does.  An empty `stopPats` models a plain `$`
lookahead, which captures the whole remaining text. -/
def takeUntilAny : List Char → List (List Char) → List Char
  | [], _ => []
  | c :: cs, stopPats =>
    if stopPats.any (fun p => startsWithCI p (c :: cs)) then []
    else c :: takeUntilAny cs stopPats

/-- Section extraction shared by the three regex matches of
`parseGeminiResponse`
(src/supabase/functions/generate-summary/index.ts, lines 113, 124,
135): find the leftmost keyword occurrence, skip an optional colon and
the greedy whitespace run `\s*`, then capture lazily up to the next
section keyword or the end of the text.  Returns `none` when no
keyword occurs, corresponding to a `null` regex match. -/
def sectionAfterAlt (text : List Char) (pats : List (List Char))
    (stopPats : List (List Char)) : Option (List Char) :=
  (findAltCI pats text).map (fun x =>
    takeUntilAny ((dropOpt ':' (text.drop (x.1 + x.2))).dropWhile isJsWhitespace)
      stopPats)


/-- JavaScript `text.split(/\n/)`: split into lines at newline
characters; an empty text yields one empty line, and a trailing
newline yields a trailing empty line. -/
def splitLines : List Char → List (List Char)
  | [] => [[]]
  | c :: cs =>
    if c = '\n' then [] :: splitLines cs
    else
      match splitLines cs with
      | [] => [[c]]
      | l :: ls => (c :: l) :: ls

/-- The line filter `line.trim().match(/^[-•*\d.]/)` of
`parseGeminiResponse`: the trimmed line starts with a bullet marker,
a digit, or a period. -/
def isSectionBullet (line : List Char) : Bool :=
  match trimChars line with
  | [] => false
  | c :: _ => c = '-' || c = '•' || c = '*' || c.isDigit || c = '.'

/-- The character class of the cleaning regex `/^[-•*\d.)\s]+/`:
dash, bullet, asterisk, digit, period, closing parenthesis, or
whitespace. -/
def isBulletJunk (c : Char) : Bool :=
  c = '-' || c = '•' || c = '*' || c.isDigit || c = '.' || c = ')' ||
    isJsWhitespace c

/-- Cleaning step `line.replace` with the class regex, then `trim`: remove the maximal
leading run of bullet-class characters, then trim. -/
def cleanBullet (line : List Char) : List Char :=
  trimChars (line.dropWhile isBulletJunk)

/-- Bullet-item extraction shared by the findings and recommendations
sections: keep the lines whose trimmed form starts with a bullet
marker, clean each, and drop the ones that clean to nothing. -/
def extractItems (sec : List Char) : List (List Char) :=
  ((splitLines sec).filter isSectionBullet).filterMap
    (fun l => if (cleanBullet l).isEmpty then none else some (cleanBullet l))

/-- Reasoning-step extraction: like `extractItems` but each kept item
is labelled with `idx + 1` where `idx` is the line's position among
the filtered bullet lines (the JavaScript code stores it under the
record key `Step (idx+1)`; the model keeps the number itself). -/
def extractSteps (sec : List Char) : List (Nat × List Char) :=
  ((splitLines sec).filter isSectionBullet).enum.filterMap
    (fun x => if (cleanBullet x.2).isEmpty then none
              else some (x.1 + 1, cleanBullet x.2))

/-- Keyword of the findings regex `/key findings?:?/i`, without the
optional trailing `s`. -/
def kfPat : List Char := ("key finding").toList

/-- The two greedy alternatives of `key findings?`: the longer variant
first. -/
def kfPats : List (List Char) := [("key findings").toList, kfPat]

/-- Keyword alternative `step-by-step` of the reasoning regex. -/
def sbsPat : List Char := ("step-by-step").toList

/-- Keyword alternative `reasoning` of the reasoning regex. -/
def rsnPat : List Char := ("reasoning").toList

/-- Keyword of the recommendations regex. -/
def recPat : List Char := ("recommendations").toList

/-- Lookahead keywords ending the findings section:
`(?=step-by-step|reasoning|recommendations|$)`. -/
def findingsStops : List (List Char) := [sbsPat, rsnPat, recPat]

/-- Default key-findings entry when no bullet parses
(index.ts line 146). -/
def kfPlaceholder : List Char := ("Analysis completed - see full summary").toList

/-- Default reasoning step when no bullet parses (index.ts line 147). -/
def stepPlaceholder : List Char := ("Analysis performed").toList

/-- Default recommendation when no bullet parses (index.ts line 148). -/
def recPlaceholder : List Char := ("Further clinical correlation recommended").toList

/-- The structured result of `parseGeminiResponse`
(index.ts lines 145-150).  Reasoning steps are the ordered
label-number/content pairs of the JavaScript record. -/
structure ParsedSummary where
  key_findings : List (List Char)
  reasoning_steps : List (Nat × List Char)
  recommendations : List (List Char)
  full_summary : List Char
deriving DecidableEq, Repr

/-- Function `parseGeminiResponse`
(src/supabase/functions/generate-summary/index.ts, lines 105-160).
Each of the three sections is located by its keyword regex; lines of
the captured section that pass the bullet filter are cleaned and
collected; an empty collection falls back to a single placeholder
entry; the full summary is always the entire unmodified input.  The
function body is total, so the source's `catch` branch (lines
151-159) is unreachable and not modelled. -/
def parseGeminiResponse (text : List Char) : ParsedSummary :=
  let keyFindings :=
    match sectionAfterAlt text kfPats findingsStops with
    | none => []
    | some sec => extractItems sec
  let reasoningSteps :=
    match sectionAfterAlt text [sbsPat, rsnPat] [recPat] with
    | none => []
    | some sec => extractSteps sec
  let recommendations :=
    match sectionAfterAlt text [recPat] [] with
    | none => []
    | some sec => extractItems sec
  { key_findings := if keyFindings.isEmpty then [kfPlaceholder] else keyFindings
    reasoning_steps :=
      if reasoningSteps.isEmpty then [(1, stepPlaceholder)] else reasoningSteps
    recommendations :=
      if recommendations.isEmpty then [recPlaceholder] else recommendations
    full_summary := text }

theorem startsWithCI_append {p q l : List Char}
    (h : startsWithCI (p ++ q) l = true) : startsWithCI p l = true := by
  induction p generalizing l with
  | nil => rfl
  | cons a ps ih =>
    cases l with
    | nil => simp [startsWithCI] at h
    | cons b t =>
      simp only [List.cons_append, startsWithCI, Bool.and_eq_true] at h ⊢
      exact ⟨h.1, ih h.2⟩

theorem findCI_none_head {p : List Char} {l : List Char}
    (h : findCI p l = none) : startsWithCI p l = false := by
  cases l with
  | nil =>
    by_contra hs
    simp only [Bool.not_eq_false] at hs
    simp [findCI, hs] at h
  | cons c t =>
    by_contra hs
    simp only [Bool.not_eq_false] at hs
    simp [findCI, hs] at h

theorem findCI_none_tail {p : List Char} {c : Char} {t : List Char}
    (h : findCI p (c :: t) = none) : findCI p t = none := by
  by_cases hs : startsWithCI p (c :: t)
  · simp [findCI, hs] at h
  · simp only [findCI, hs, if_neg, Bool.false_eq_true, ite_false] at h
    exact Option.map_eq_none'.1 h

theorem findCI_append_none {p q l : List Char}
    (h : findCI p l = none) : findCI (p ++ q) l = none := by
  induction l with
  | nil =>
    have hs := findCI_none_head h
    have : startsWithCI (p ++ q) [] = false := by
      by_contra hpq
      simp only [Bool.not_eq_false] at hpq
      rw [startsWithCI_append hpq] at hs
      simp at hs
    simp [findCI, this]
  | cons c t ih =>
    have hs := findCI_none_head h
    have hpq : startsWithCI (p ++ q) (c :: t) = false := by
      by_contra hpq
      simp only [Bool.not_eq_false] at hpq
      rw [startsWithCI_append hpq] at hs
      simp at hs
    have ht := ih (findCI_none_tail h)
    simp [findCI, hpq, ht]

theorem findAltCI_none {pats : List (List Char)} {l : List Char}
    (h : ∀ p ∈ pats, findCI p l = none) : findAltCI pats l = none := by
  induction l with
  | nil =>
    have hf : pats.find? (fun p => startsWithCI p []) = none := by
      rw [List.find?_eq_none]
      intro p hp
      simp [findCI_none_head (h p hp)]
    simp [findAltCI, hf]
  | cons c t ih =>
    have hf : pats.find? (fun p => startsWithCI p (c :: t)) = none := by
      rw [List.find?_eq_none]
      intro p hp
      simp [findCI_none_head (h p hp)]
    have ht := ih (fun p hp => findCI_none_tail (h p hp))
    simp [findAltCI, hf, ht]

/-- C7: for every response text containing none of the section-header
keywords ("key finding", "step-by-step", "reasoning",
"recommendations", case-insensitively), the parser returns exactly the
single placeholder entry in each of key findings, reasoning steps and
recommendations, and the full summary equals the input text itself. -/
theorem parse_no_headers (text : List Char)
    (h1 : findCI kfPat text = none)
    (h2 : findCI sbsPat text = none)
    (h3 : findCI rsnPat text = none)
    (h4 : findCI recPat text = none) :
    parseGeminiResponse text =
      { key_findings := [kfPlaceholder]
        reasoning_steps := [(1, stepPlaceholder)]
        recommendations := [recPlaceholder]
        full_summary := text } := by
  have hkfs : findCI (("key findings").toList) text = none := by
    have heq : ("key findings").toList = kfPat ++ ['s'] := by decide
    rw [heq]
    exact findCI_append_none h1
  have halt1 : findAltCI kfPats text = none := by
    refine findAltCI_none ?_
    intro p hp
    simp only [kfPats, List.mem_cons, List.not_mem_nil, or_false] at hp
    rcases hp with hp | hp
    · rw [hp]; exact hkfs
    · rw [hp]; exact h1
  have halt2 : findAltCI [sbsPat, rsnPat] text = none := by
    refine findAltCI_none ?_
    intro p hp
    simp only [List.mem_cons, List.not_mem_nil, or_false] at hp
    rcases hp with hp | hp
    · rw [hp]; exact h2
    · rw [hp]; exact h3
  have halt3 : findAltCI [recPat] text = none := by
    refine findAltCI_none ?_
    intro p hp
    simp only [List.mem_cons, List.not_mem_nil, or_false] at hp
    rw [hp]
    exact h4
  simp [parseGeminiResponse, sectionAfterAlt, halt1, halt2, halt3]

/-- Witness for `parse_no_headers` at a concrete keyword-free text. -/
theorem parse_no_headers_witness :
    findCI kfPat (("No structured sections here.").toList) = none ∧
    findCI sbsPat (("No structured sections here.").toList) = none ∧
    findCI rsnPat (("No structured sections here.").toList) = none ∧
    findCI recPat (("No structured sections here.").toList) = none ∧
    parseGeminiResponse (("No structured sections here.").toList) =
      { key_findings := [kfPlaceholder]
        reasoning_steps := [(1, stepPlaceholder)]
        recommendations := [recPlaceholder]
        full_summary := ("No structured sections here.").toList } :=
  ⟨by decide, by decide, by decide, by decide,
    parse_no_headers (("No structured sections here.").toList)
      (by decide) (by decide) (by decide) (by decide)⟩

/-- C10: every stored bullet item equals its source line with the
entire maximal leading run of characters from the class dash, bullet,
asterisk, digit, period, closing parenthesis, whitespace removed and
the remainder trimmed: the line decomposes into that leading run (all
of whose characters lie in the class) followed by a remainder whose
first character, if any, lies outside the class, and the stored item
is the trimmed remainder.  Consequently, leading content digits,
periods and closing parentheses are stripped too: a finding reported
as "- 5.2 cm mass" is stored as "cm mass". -/
theorem bullet_cleaning :
    (∀ sec item, item ∈ extractItems sec →
      ∃ line ∈ (splitLines sec).filter isSectionBullet,
        line = line.takeWhile isBulletJunk ++ line.dropWhile isBulletJunk ∧
        (∀ c ∈ line.takeWhile isBulletJunk, isBulletJunk c = true) ∧
        (∀ c, (line.dropWhile isBulletJunk).head? = some c →
          isBulletJunk c = false) ∧
        item = trimChars (line.dropWhile isBulletJunk)) ∧
    (parseGeminiResponse (("key findings:\n- 5.2 cm mass").toList)).key_findings =
      [("cm mass").toList] := by
  constructor
  · intro sec item hitem
    simp only [extractItems, List.mem_filterMap] at hitem
    obtain ⟨line, hline, hcl⟩ := hitem
    by_cases he : (cleanBullet line).isEmpty
    · simp [he] at hcl
    · simp only [he, Bool.false_eq_true, ite_false, Option.some.injEq] at hcl
      refine ⟨line, hline,
        (List.takeWhile_append_dropWhile isBulletJunk line).symm, ?_, ?_, ?_⟩
      · intro c hc
        exact List.mem_takeWhile_imp hc
      · intro c hc
        have hh := List.head?_dropWhile_not isBulletJunk line
        rw [hc] at hh
        exact hh
      · rw [← hcl]
        rfl
  · decide

/-- Witness for `bullet_cleaning` at the concrete section
"- 5.2 cm mass", whose stored item is "cm mass". -/
theorem bullet_cleaning_witness :
    ("cm mass").toList ∈ extractItems (("- 5.2 cm mass").toList) ∧
    ∃ line ∈ (splitLines (("- 5.2 cm mass").toList)).filter isSectionBullet,
      line = line.takeWhile isBulletJunk ++ line.dropWhile isBulletJunk ∧
      (∀ c ∈ line.takeWhile isBulletJunk, isBulletJunk c = true) ∧
      (∀ c, (line.dropWhile isBulletJunk).head? = some c →
        isBulletJunk c = false) ∧
      ("cm mass").toList = trimChars (line.dropWhile isBulletJunk) :=
  ⟨by decide,
    bullet_cleaning.1 (("- 5.2 cm mass").toList) (("cm mass").toList) (by decide)⟩

/-- Outcomes of the two external calls made by `retrieveContext`
(src/supabase/functions/generate-summary/index.ts, lines 70-102):
`embedResult` is the outcome of `generateGeminiEmbedding` for the
query (which throws — here `Except.error` — when the HTTP response is
not ok, index.ts lines 29-32), and `rpcResult` is the
`{ data, error }` outcome of the `search_similar_chunks` RPC (in
production its data is `search_similar_chunks` applied to the stored
rows). -/
structure RagEnv where
  embedResult : Except (List Char) (List ℚ)
  rpcResult : Except (List Char) (List ChunkRow)

/-- Concatenation of the retrieved chunks into one context blob
(index.ts lines 97-99): the chunk bodies joined by blank lines.  The
numeric header text prefixed to each block (`[Chunk i - Relevance:
p%]`) is elided: no claim inspects the rendered header, only whether
the result is empty or an error. -/
def renderContext (chunks : List ChunkRow) : List Char :=
  match chunks.map (fun c => c.content) with
  | [] => []
  | l :: ls => ls.foldl (fun acc x => acc ++ ('\n' :: '\n' :: x)) l

/-- Function `retrieveContext` (index.ts lines 70-102).  The embedding call is
awaited without a surrounding try/catch, so its error propagates to
the caller; an RPC error is checked via the `{ data, error }` result
and converted to the empty string (lines 87-90), as is an empty chunk
list (lines 92-94). -/
def retrieveContext (env : RagEnv) : Except (List Char) (List Char) :=
  match env.embedResult with
  | .error e => .error e
  | .ok _queryEmbedding =>
    match env.rpcResult with
    | .error _ => .ok []
    | .ok chunks => if chunks.isEmpty then .ok [] else .ok (renderContext chunks)

/-- The orchestrator's guarded RAG stage (index.ts lines 221-229):
`retrievedContext` starts as the empty string and the call to
`retrieveContext` is wrapped in a try/catch whose handler merely logs,
so an error from `retrieveContext` leaves the empty string in place. -/
def ragStage (env : RagEnv) : List Char :=
  match retrieveContext env with
  | .ok s => s
  | .error _ => []

/-- A failing embedding outcome used as concrete input. -/
def embedFailMsg : List Char := ("Gemini API error: 500 - quota exceeded").toList

/-- C5 counterexample: when the embedding call fails,
`retrieveContext` itself evaluates to that error — an exception
propagating to its caller — and not to the empty string. -/
theorem retrieve_embed_error_claim_false :
    retrieveContext { embedResult := .error embedFailMsg, rpcResult := .ok [] } =
      .error embedFailMsg ∧
    (Except.error embedFailMsg : Except (List Char) (List Char)) ≠ .ok [] :=
  ⟨rfl, by simp⟩

/-- C5 (amended): when the embedding call fails during retrieval,
`retrieveContext` propagates the exception to its caller; it is the
Summarization Orchestrator's enclosing try/catch that converts the
failure into an empty context string, so the request continues
without context rather than aborting. -/
theorem retrieve_embed_error (env : RagEnv) (e : List Char)
    (h : env.embedResult = .error e) :
    retrieveContext env = .error e ∧ ragStage env = [] := by
  refine ⟨?_, ?_⟩
  · simp [retrieveContext, h]
  · simp [ragStage, retrieveContext, h]

/-- Witness for `retrieve_embed_error` at a concrete environment. -/
theorem retrieve_embed_error_witness :
    ({ embedResult := .error embedFailMsg, rpcResult := .ok [] } : RagEnv).embedResult =
      .error embedFailMsg ∧
    (retrieveContext { embedResult := .error embedFailMsg, rpcResult := .ok [] } =
        .error embedFailMsg ∧
      ragStage { embedResult := .error embedFailMsg, rpcResult := .ok [] } = []) :=
  ⟨rfl, retrieve_embed_error
    { embedResult := .error embedFailMsg, rpcResult := .ok [] } embedFailMsg rfl⟩

/-- The `report_status` enum of the database schema
(src/unnamed/part_000, line 19). -/
inductive ReportStatus where
  | uploaded
  | processing
  | completed
  | failed
deriving DecidableEq, Repr

/-- A row of the `reports` table, reduced to the fields the
summarization handler reads or writes (id and status; the remaining
columns only feed prompt text). -/
structure Report where
  id : Nat
  status : ReportStatus
deriving DecidableEq, Repr

/-- A row of the `summaries` table (src/unnamed/part_000, lines
52-60): primary key `id` (database default `gen_random_uuid()`),
`report_id` carrying a UNIQUE constraint, and the four payload
columns. -/
structure SummaryRow where
  id : Nat
  report_id : Nat
  key_findings : List (List Char)
  reasoning_steps : List (Nat × List Char)
  recommendations : List (List Char)
  full_summary : List Char
deriving DecidableEq, Repr

/-- The database state touched by the handler.  `nextSummaryId` models
the `gen_random_uuid()` primary-key default of `summaries.id`: each
insert consumes a fresh key, never equal to an existing row's id (the
model keeps ids below the counter by construction in every run
examined). -/
structure DB where
  reports : List Report
  summaries : List SummaryRow
  nextSummaryId : Nat
deriving DecidableEq, Repr

/-- Lookup `SELECT * FROM reports WHERE id = rid` via `.single()`
(index.ts lines 180-184). -/
def findReport (db : DB) (rid : Nat) : Option Report :=
  db.reports.find? (fun r => r.id == rid)

/-- Update `UPDATE reports SET status = st WHERE id = rid`
(index.ts lines 188-192 and 351-358; the handler never checks this
call's error result). -/
def setStatus (db : DB) (rid : Nat) (st : ReportStatus) : DB :=
  { db with reports :=
      db.reports.map (fun r => if r.id == rid then { r with status := st } else r) }

/-- Error raised by PostgreSQL when a plain insert violates the
UNIQUE constraint on `summaries.report_id`. -/
def uniqueViolationMsg : List Char :=
  ("duplicate key value violates unique constraint summaries_report_id_key").toList

/-- Summary row built from the parsed analysis data
(index.ts lines 338-344). -/
def mkSummaryRow (id rid : Nat) (d : ParsedSummary) : SummaryRow :=
  { id := id
    report_id := rid
    key_findings := d.key_findings
    reasoning_steps := d.reasoning_steps
    recommendations := d.recommendations
    full_summary := d.full_summary }

/-- The `summaries` upsert (index.ts lines 336-344).  The supabase-js
`.upsert` call passes no `onConflict` option, so PostgREST resolves
conflicts on the table's PRIMARY KEY (`id`); the payload omits `id`,
so the database default generates a fresh primary key and the
PRIMARY KEY conflict branch of the upsert is unreachable.  The
statement is therefore a plain insert subject to the UNIQUE
constraint on `report_id` (src/unnamed/part_000, line 54): it fails
with a unique violation when a summary row for the report already
exists, and inserts otherwise. -/
def upsertSummary (db : DB) (rid : Nat) (d : ParsedSummary) :
    Option (List Char) × DB :=
  if db.summaries.any (fun s => s.report_id == rid) then
    (some uniqueViolationMsg, db)
  else
    (none, { db with
      summaries := db.summaries ++ [mkSummaryRow db.nextSummaryId rid d]
      nextSummaryId := db.nextSummaryId + 1 })

/-- Outcomes of the external calls made by the request handler
(index.ts lines 162-376), one field per awaited effect:
the configured secrets, the storage download, the RAG environment,
the HuggingFace outcome (`none` both when the key is missing and when
the call failed, since `getMedicalInsights` swallows its own errors),
and the Gemini generation call (`Except.error` when the HTTP response
is not ok, making the handler throw at line 322; `Except.ok` carries
the extracted `generatedText` of line 329). -/
structure GenEnv where
  geminiKey : Option (List Char)
  hfKey : Option (List Char)
  download : Except (List Char) (List Char)
  rag : RagEnv
  hfResult : Option (List Char)
  aiResult : Except (List Char) (List Char)

/-- Result of one request: the HTTP 200 body's summary on success, or
the HTTP 500 body's error message produced by the catch handler
(index.ts lines 366-375). -/
inductive ServeOutcome where
  | success (summary : ParsedSummary)
  | failure (msg : List Char)
deriving DecidableEq, Repr

/-- Error message of `.single()` when the report row is missing. -/
def reportNotFoundMsg : List Char := ("no rows returned").toList

/-- Error thrown at index.ts line 294 when no Gemini key is set. -/
def geminiKeyMissingMsg : List Char :=
  ("GEMINI_API_KEY not configured. Please add it to Supabase secrets.").toList

/-- The `generate-summary` request handler
(src/supabase/functions/generate-summary/index.ts, lines 162-376),
threading the database state through each effect.  Every `throw`
transfers control to the catch handler, which only builds the error
response: it performs no database write, so whatever status the
report row has at the time of the throw is the status it keeps.
Content fetch (lines 194-217), RAG (lines 219-232) and HuggingFace
insights (lines 234-248) are wrapped in their own guards and cannot
throw; prompt assembly (lines 250-295 except the key check) is pure
string building that no claim depends on, so the assembled prompt is
not materialized here. -/
def generateSummaryServe (env : GenEnv) (db : DB) (reportId : Nat) :
    ServeOutcome × DB :=
  match findReport db reportId with
  | none => (ServeOutcome.failure reportNotFoundMsg, db)
  | some _report =>
    let db1 := setStatus db reportId ReportStatus.processing
    let _reportContent : List Char :=
      match env.download with
      | .ok t => t
      | .error _ => []
    let _retrievedContext : List Char :=
      match env.geminiKey with
      | some _ => ragStage env.rag
      | none => []
    match env.geminiKey with
    | none => (ServeOutcome.failure geminiKeyMissingMsg, db1)
    | some _ =>
      match env.aiResult with
      | .error e => (ServeOutcome.failure e, db1)
      | .ok generatedText =>
        let analysisData := parseGeminiResponse generatedText
        match upsertSummary db1 reportId analysisData with
        | (some err, db2) => (ServeOutcome.failure err, db2)
        | (none, db2) =>
          let db3 := setStatus db2 reportId ReportStatus.completed
          (ServeOutcome.success analysisData, db3)

/-- Initial database: one uploaded report, no summaries. -/
def db0 : DB :=
  { reports := [{ id := 1, status := ReportStatus.uploaded }]
    summaries := []
    nextSummaryId := 1 }

/-- Environment in which every call succeeds except the Gemini
generation call, which returns a non-ok HTTP response. -/
def envGenFail : GenEnv :=
  { geminiKey := some (("k").toList)
    hfKey := none
    download := Except.ok (("CT scan of the chest").toList)
    rag := { embedResult := Except.ok [], rpcResult := Except.ok [] }
    hfResult := none
    aiResult := Except.error (("Gemini API error: 500").toList) }

/-- Environment in which every call succeeds. -/
def envOK : GenEnv :=
  { geminiKey := some (("k").toList)
    hfKey := none
    download := Except.ok (("CT scan of the chest").toList)
    rag := { embedResult := Except.ok [], rpcResult := Except.ok [] }
    hfResult := none
    aiResult := Except.ok (("The study shows no acute findings.").toList) }

/-- C1: evaluation at the failing input.  When the generation call
fails after the report's status has been set to `processing`, the
handler returns the error response and the report row is left with
status `processing` — no failure status is ever written (the catch
handler at index.ts lines 366-375 performs no database update), and
no summary row exists, contradicting the claim that the status is set
to reflect failure before the error is returned. -/
theorem serve_failure_leaves_processing :
    (generateSummaryServe envGenFail db0 1).1 =
      ServeOutcome.failure (("Gemini API error: 500").toList) ∧
    (generateSummaryServe envGenFail db0 1).2.reports =
      [{ id := 1, status := ReportStatus.processing }] ∧
    (generateSummaryServe envGenFail db0 1).2.summaries = [] := by
  decide

/-- C2: evaluation at the failing input.  The first invocation for
report 1 succeeds and stores one summary row; the second invocation
for the same report reaches the summaries insert, violates the UNIQUE
constraint on `report_id` (because the upsert's conflict target is
the primary key `id`, freshly generated each time), and returns the
error response, leaving the first invocation's row unchanged and the
report stuck at `processing` — contradicting the claim that both
invocations succeed with a clean overwrite. -/
theorem serve_second_invocation_fails :
    (generateSummaryServe envOK db0 1).1 =
      ServeOutcome.success
        (parseGeminiResponse (("The study shows no acute findings.").toList)) ∧
    (generateSummaryServe envOK db0 1).2.summaries.length = 1 ∧
    (generateSummaryServe envOK (generateSummaryServe envOK db0 1).2 1).1 =
      ServeOutcome.failure uniqueViolationMsg ∧
    (generateSummaryServe envOK (generateSummaryServe envOK db0 1).2 1).2.summaries =
      (generateSummaryServe envOK db0 1).2.summaries ∧
    (generateSummaryServe envOK (generateSummaryServe envOK db0 1).2 1).2.reports =
      [{ id := 1, status := ReportStatus.processing }] := by
  decide
